import Mathlib

/-!
Verification of the cluster model module (`base_cluster.py`).

The module holds a value object `BaseCluster` with:
  * a resource-name validator `_CLUSTER_NAME_RE` matching
    `^projects/(?P<project>[^/]+)/instances/(?P<instance>[^/]+)/clusters/(?P<cluster_id>[a-z][-a-z0-9]*)$`
  * `from_pb` which parses a wire payload into a record,
  * `_update_from_pb` which copies server fields onto a record,
  * a `name` property, identity-based equality, lifecycle stubs and `_to_pb`.

The regex is embedded as an executable matcher over `List Char`.  The
pattern contains no alternation and every character class excludes the
delimiter that follows it (`[^/]+` is always followed by a literal `/`;
`[-a-z0-9]*` is followed by `$` and the class contains no newline), so the
backtracking search of Python's `re` engine is deterministic here and the
greedy first-match translation below is exact.  One Python-specific point
is kept faithfully: in Python, a `$` anchor (without `re.MULTILINE`)
matches at the end of the string AND just before a newline that ends the
string, so a name carrying one trailing newline after a valid cluster id
is accepted by `_CLUSTER_NAME_RE.match`.  This is modelled by
`dollarOnly` below.
-/

/-- `c` is in the class `[a-z]`. -/
def isLowerAZ (c : Char) : Bool := decide ('a' ≤ c ∧ c ≤ 'z')

/-- `c` is in the class `[-a-z0-9]`. -/
def isIdChar (c : Char) : Bool :=
  decide (c = '-' ∨ ('a' ≤ c ∧ c ≤ 'z') ∨ ('0' ≤ c ∧ c ≤ '9'))

/-- Match a literal piece of the pattern: `dropLit lit s` returns the rest of
`s` after the leading occurrence of `lit`, or `none` when `s` does not start
with `lit`. -/
def dropLit : List Char → List Char → Option (List Char)
  | [], s => some s
  | _ :: _, [] => none
  | c :: cs, x :: xs => if x = c then dropLit cs xs else none

/-- Split at the first `'/'`: `splitAtSlash s = some (seg, rest)` when
`s = seg ++ '/' :: rest` with `seg` slash-free; `none` when `s` has no slash.
Together with a nonemptiness check this is the deterministic reading of the
greedy `[^/]+/` of the pattern. -/
def splitAtSlash : List Char → Option (List Char × List Char)
  | [] => none
  | c :: cs =>
    if c = '/' then some ([], cs)
    else
      match splitAtSlash cs with
      | none => none
      | some (seg, rest) => some (c :: seg, rest)

/-- Greedy run of `[-a-z0-9]*`: returns the maximal class-prefix and the rest. -/
def takeIdRun : List Char → List Char × List Char
  | [] => ([], [])
  | c :: cs =>
    if isIdChar c then
      ((c :: (takeIdRun cs).1), (takeIdRun cs).2)
    else ([], c :: cs)

/-- Python semantics of the `$` anchor (no `re.MULTILINE`): it matches at the
very end of the string, and also just before a newline that ends the string. -/
def dollarOnly : List Char → Bool
  | [] => true
  | c :: cs => decide (c = '\n') && cs.isEmpty

/-- The literal `projects/` of the pattern. -/
def projectsLit : List Char := "projects/".data

/-- The literal `instances/` of the pattern. -/
def instancesLit : List Char := "instances/".data

/-- The literal `clusters/` of the pattern. -/
def clustersLit : List Char := "clusters/".data

/-- The tail of the pattern, `[a-z][-a-z0-9]*$`: one lowercase letter, the
greedy id run, then the `$` anchor; returns the `cluster_id` capture. -/
def idMatch : List Char → Option (List Char)
  | [] => none
  | c :: cs =>
    if isLowerAZ c then
      if dollarOnly (takeIdRun cs).2 then some (c :: (takeIdRun cs).1)
      else none
    else none

/-- Executable embedding of `_CLUSTER_NAME_RE.match` (anchored by `re.match`
and the trailing `$`): on success returns the three captured groups
`(project, instance, cluster_id)`. -/
def reMatch (s : List Char) : Option (List Char × List Char × List Char) :=
  (dropLit projectsLit s).bind fun s1 =>
  (splitAtSlash s1).bind fun ps =>
  if ps.1 = [] then none else
  (dropLit instancesLit ps.2).bind fun s3 =>
  (splitAtSlash s3).bind fun qs =>
  if qs.1 = [] then none else
  (dropLit clustersLit qs.2).bind fun s5 =>
  (idMatch s5).map fun cid => (ps.1, qs.1, cid)

/-- String-level wrapper of the name matcher: the check performed by
`from_pb` on `cluster_pb.name`. -/
def matchClusterName (s : String) : Option (String × String × String) :=
  match reMatch s.data with
  | none => none
  | some (p, i, c) => some (⟨p⟩, ⟨i⟩, ⟨c⟩)

/-- A full cluster id: `[a-z][-a-z0-9]*` (nonempty, lowercase start, then the
id class). -/
def validIdB : List Char → Bool
  | [] => false
  | c :: cs => isLowerAZ c && cs.all isIdChar

/-- Python `s.split("/")` for the single-character separator `"/"`:
`"".split("/") = [""]`, and every slash opens a new (possibly empty) piece. -/
def splitOnSlash : List Char → List (List Char)
  | [] => [[]]
  | c :: cs =>
    if c = '/' then [] :: splitOnSlash cs
    else
      match splitOnSlash cs with
      | [] => [[c]]
      | s :: ss => (c :: s) :: ss

/-- Python `s.split("/")[-1]`, as used by `_update_from_pb` on
`cluster_pb.location`. -/
def lastPathSegment (s : String) : String := ⟨(splitOnSlash s.data).getLastD []⟩

/-- The owning client, as seen from this module: `instance._client.project`. -/
structure Client where
  project : String
deriving DecidableEq

/-- The owning instance, as seen from this module: `instance.instance_id` and
`instance._client`.  Its equality is modelled from the spec as value equality
of the identity fields (the instance class itself is an external
collaborator). -/
structure Instance where
  instance_id : String
  _client : Client
deriving DecidableEq

/-- The wire payload `instance_pb2.Cluster`: the fields this module reads or
writes.  Scalar protobuf fields are always present and default to `""` / `0`. -/
structure ClusterPb where
  name : String
  location : String
  serve_nodes : Int
  default_storage_type : Int
  state : Int
deriving DecidableEq

/-- The record itself.  The constructor defaults every optional field to
`None`, modelled by `Option`. -/
structure BaseCluster where
  cluster_id : String
  _instance : Instance
  location_id : Option String
  serve_nodes : Option Int
  default_storage_type : Option Int
  _state : Option Int
deriving DecidableEq

/-- The errors this module raises: `ValueError` with its argument tuple
(a tuple of strings in every raise of this file), and `NotImplementedError`. -/
inductive PyError where
  | valueError (args : List String)
  | notImplementedError
deriving DecidableEq

/-- Message of the format error (Python concatenates the two adjacent string
literals of the raise into this one string). -/
def clusterNameFormatMsg : String := "Cluster protobuf name was not in the expected format."

/-- Message of the instance-mismatch error. -/
def instanceMismatchMsg : String :=
  "Instance ID on cluster does not match the instance ID on the client"

/-- Message of the project-mismatch error. -/
def projectMismatchMsg : String :=
  "Project ID on cluster does not match the project ID on the client"

/-- `BaseCluster._update_from_pb`: copy `location_id` (last path segment of
`cluster_pb.location`), `serve_nodes`, `default_storage_type` and `state`
from the payload onto the record, overwriting the prior values. -/
def BaseCluster._update_from_pb (self : BaseCluster) (cluster_pb : ClusterPb) : BaseCluster :=
  { self with
    location_id := some (lastPathSegment cluster_pb.location)
    serve_nodes := some cluster_pb.serve_nodes
    default_storage_type := some cluster_pb.default_storage_type
    _state := some cluster_pb.state }

/-- `BaseCluster.from_pb`: validate `cluster_pb.name` against the pattern,
check the instance segment then the project segment against the client
context, and build the record via `_update_from_pb`. -/
def BaseCluster.from_pb (cluster_pb : ClusterPb) (inst : Instance) :
    Except PyError BaseCluster :=
  match matchClusterName cluster_pb.name with
  | none => .error (.valueError [clusterNameFormatMsg, cluster_pb.name])
  | some (project, instance_seg, cluster_id) =>
    if instance_seg ≠ inst.instance_id then
      .error (.valueError [instanceMismatchMsg])
    else if project ≠ inst._client.project then
      .error (.valueError [projectMismatchMsg])
    else
      let result : BaseCluster :=
        { cluster_id := cluster_id, _instance := inst, location_id := none,
          serve_nodes := none, default_storage_type := none, _state := none }
      .ok (result._update_from_pb cluster_pb)

/-- Modelled from the spec: the path builder
`instance_admin_client.cluster_path` of the external admin client (not part
of this repository) produces the canonical
`projects/{project}/instances/{instance}/clusters/{cluster_id}` path. -/
def cluster_path (project instance_id cluster_id : String) : String :=
  "projects/" ++ project ++ "/instances/" ++ instance_id ++ "/clusters/" ++ cluster_id

/-- The `name` property: recomputed from the live `_instance` and
`cluster_id` on every access, never cached. -/
def BaseCluster.name (self : BaseCluster) : String :=
  cluster_path self._instance._client.project self._instance.instance_id self.cluster_id

/-- The `state` property: plain accessor. -/
def BaseCluster.state (self : BaseCluster) : Option Int := self._state

/-- `BaseCluster.__eq__` between two values of the same concrete type (the
`isinstance` guard of the source holds for any two `BaseCluster`s of this
embedding): identity fields only, configuration deliberately excluded. -/
def BaseCluster.eqRecord (self other : BaseCluster) : Bool :=
  decide (other.cluster_id = self.cluster_id) && decide (other._instance = self._instance)

/-- `BaseCluster.__ne__`. -/
def BaseCluster.neRecord (self other : BaseCluster) : Bool := !(self.eqRecord other)

/-- `BaseCluster.reload`: stub, raises `NotImplementedError` before touching
any field, so the record comes back unchanged. -/
def BaseCluster.reload (self : BaseCluster) : Except PyError Unit × BaseCluster :=
  (.error .notImplementedError, self)

/-- `BaseCluster.exists`: stub, raises `NotImplementedError`. -/
def BaseCluster.existsCluster (self : BaseCluster) : Except PyError Unit × BaseCluster :=
  (.error .notImplementedError, self)

/-- `BaseCluster.create`: stub, raises `NotImplementedError`. -/
def BaseCluster.create (self : BaseCluster) : Except PyError Unit × BaseCluster :=
  (.error .notImplementedError, self)

/-- `BaseCluster.update`: stub, raises `NotImplementedError`. -/
def BaseCluster.update (self : BaseCluster) : Except PyError Unit × BaseCluster :=
  (.error .notImplementedError, self)

/-- `BaseCluster.delete`: stub, raises `NotImplementedError`. -/
def BaseCluster.delete (self : BaseCluster) : Except PyError Unit × BaseCluster :=
  (.error .notImplementedError, self)

/-- Modelled from the spec: the path builder
`instance_admin_client.location_path` of the external admin client (not part
of this repository) produces the fully-qualified
`projects/{project}/locations/{location}` path. -/
def location_path (project location_id : String) : String :=
  "projects/" ++ project ++ "/locations/" ++ location_id

/-- `BaseCluster._to_pb`: build the wire payload for API calls.  Only
`location`, `serve_nodes` and `default_storage_type` are set; `name` and
`state` stay at their protobuf defaults.  A Python `None` keyword passed to
a protobuf constructor means "field not set", so an unset scalar reads back
as its protobuf default; `Option.getD` renders that for the numeric fields,
and an unset `location_id` is rendered through Python's string formatting of
`None`. -/
def BaseCluster._to_pb (self : BaseCluster) : ClusterPb :=
  { name := ""
    location := location_path self._instance._client.project (self.location_id.getD "None")
    serve_nodes := self.serve_nodes.getD 0
    default_storage_type := self.default_storage_type.getD 0
    state := 0 }

/-- State-passing reading of `from_pb` for the frame property: alongside the
result, the payload as the call leaves it.  Every access the source makes to
`cluster_pb` is a read; no branch assigns to it, so each branch returns the
payload it received. -/
def BaseCluster.from_pb_st (cluster_pb : ClusterPb) (inst : Instance) :
    (Except PyError BaseCluster) × ClusterPb :=
  match matchClusterName cluster_pb.name with
  | none => (.error (.valueError [clusterNameFormatMsg, cluster_pb.name]), cluster_pb)
  | some (project, instance_seg, cluster_id) =>
    if instance_seg ≠ inst.instance_id then
      (.error (.valueError [instanceMismatchMsg]), cluster_pb)
    else if project ≠ inst._client.project then
      (.error (.valueError [projectMismatchMsg]), cluster_pb)
    else
      let result : BaseCluster :=
        { cluster_id := cluster_id, _instance := inst, location_id := none,
          serve_nodes := none, default_storage_type := none, _state := none }
      (.ok (result._update_from_pb cluster_pb), cluster_pb)

/-! ### Properties of the matcher components -/

theorem dropLit_append (lit r : List Char) : dropLit lit (lit ++ r) = some r := by
  induction lit with
  | nil => rfl
  | cons c cs ih => simp [dropLit, ih]

theorem dropLit_eq_some {lit s r : List Char} (h : dropLit lit s = some r) :
    s = lit ++ r := by
  induction lit generalizing s with
  | nil => simp only [dropLit, Option.some.injEq] at h; simpa using h
  | cons c cs ih =>
    cases s with
    | nil => simp [dropLit] at h
    | cons x xs =>
      simp only [dropLit] at h
      by_cases hx : x = c
      · rw [if_pos hx] at h
        subst hx
        simpa using ih h
      · rw [if_neg hx] at h
        exact absurd h (by simp)

theorem splitAtSlash_eq_some {s seg rest : List Char}
    (h : splitAtSlash s = some (seg, rest)) :
    s = seg ++ '/' :: rest ∧ '/' ∉ seg := by
  induction s generalizing seg rest with
  | nil => simp [splitAtSlash] at h
  | cons c cs ih =>
    simp only [splitAtSlash] at h
    by_cases hc : c = '/'
    · rw [if_pos hc] at h
      simp only [Option.some.injEq, Prod.mk.injEq] at h
      obtain ⟨rfl, rfl⟩ := h
      simp [hc]
    · rw [if_neg hc] at h
      rcases hsp : splitAtSlash cs with _ | ⟨a, b⟩
      · rw [hsp] at h; simp at h
      · rw [hsp] at h
        simp only [Option.some.injEq, Prod.mk.injEq] at h
        obtain ⟨rfl, rfl⟩ := h
        obtain ⟨e, hfree⟩ := ih hsp
        constructor
        · simp [e]
        · simp only [List.mem_cons, not_or]
          exact ⟨fun hcontra => hc hcontra.symm, hfree⟩

theorem splitAtSlash_append {seg : List Char} (h : '/' ∉ seg) (rest : List Char) :
    splitAtSlash (seg ++ '/' :: rest) = some (seg, rest) := by
  induction seg with
  | nil => simp [splitAtSlash]
  | cons c cs ih =>
    have hc : ¬c = '/' := by
      intro e
      exact h (by simp [e])
    have hcs : '/' ∉ cs := fun hm => h (List.mem_cons_of_mem _ hm)
    simp only [List.cons_append, splitAtSlash, if_neg hc, List.append_eq, ih hcs]

theorem takeIdRun_append {r rest : List Char} (hr : ∀ x ∈ r, isIdChar x = true)
    (hrest : ∀ x xs, rest = x :: xs → isIdChar x = false) :
    takeIdRun (r ++ rest) = (r, rest) := by
  induction r with
  | nil =>
    cases rest with
    | nil => rfl
    | cons x xs => simp [takeIdRun, hrest x xs rfl]
  | cons c cs ih =>
    have hc := hr c (by simp)
    have ihcs := ih fun x hx => hr x (by simp [hx])
    simp [takeIdRun, hc, ihcs]

theorem takeIdRun_eq {s r rest : List Char} (h : takeIdRun s = (r, rest)) :
    s = r ++ rest ∧ (∀ x ∈ r, isIdChar x = true) ∧
      (∀ x xs, rest = x :: xs → isIdChar x = false) := by
  induction s generalizing r rest with
  | nil =>
    simp only [takeIdRun, Prod.mk.injEq] at h
    obtain ⟨h1, h2⟩ := h
    subst h1; subst h2
    exact ⟨rfl, by simp, fun x xs hx => List.noConfusion hx⟩
  | cons c cs ih =>
    simp only [takeIdRun] at h
    by_cases hc : isIdChar c = true
    · rw [if_pos hc] at h
      rcases hcs : takeIdRun cs with ⟨a, b⟩
      rw [hcs] at h
      simp only [Prod.mk.injEq] at h
      obtain ⟨h1, h2⟩ := h
      subst h1; subst h2
      obtain ⟨e, hall, hstop⟩ := ih hcs
      refine ⟨by simp [e], ?_, hstop⟩
      intro x hx
      rcases List.mem_cons.mp hx with rfl | hx'
      · exact hc
      · exact hall x hx'
    · rw [if_neg hc] at h
      simp only [Prod.mk.injEq] at h
      obtain ⟨h1, h2⟩ := h
      subst h1; subst h2
      refine ⟨rfl, by simp, ?_⟩
      intro x xs hx
      injection hx with e1 e2
      subst e1
      simpa using hc

theorem dollarOnly_eq_true {t : List Char} :
    dollarOnly t = true ↔ t = [] ∨ t = ['\n'] := by
  cases t with
  | nil => simp [dollarOnly]
  | cons c cs => simp [dollarOnly, List.isEmpty_iff, and_comm]

/-- The exact character sequence the pattern describes (before the `$`):
`projects/` p `/instances/` i `/clusters/` c. -/
def canonL (p i c : List Char) : List Char :=
  projectsLit ++ p ++ '/' :: (instancesLit ++ i ++ '/' :: (clustersLit ++ c))

theorem canonL_append (p i c t : List Char) :
    canonL p i c ++ t
      = projectsLit ++
          (p ++ '/' :: (instancesLit ++ (i ++ '/' :: (clustersLit ++ (c ++ t))))) := by
  simp [canonL, List.append_assoc]

/-- Soundness of the id tail: a successful match of `[a-z][-a-z0-9]*$` yields
a valid cluster id, and the input is that id up to one trailing newline. -/
theorem idMatch_eq_some {s cid : List Char} (h : idMatch s = some cid) :
    validIdB cid = true ∧ (s = cid ∨ s = cid ++ ['\n']) := by
  cases s with
  | nil => simp [idMatch] at h
  | cons ch cs =>
    simp only [idMatch] at h
    rcases htir : takeIdRun cs with ⟨run, rest⟩
    rw [htir] at h
    by_cases hlo : isLowerAZ ch = true
    · rw [if_pos hlo] at h
      by_cases hdo : dollarOnly rest = true
      · rw [if_pos hdo] at h
        simp only [Option.some.injEq] at h
        subst h
        obtain ⟨e6, hall, _⟩ := takeIdRun_eq htir
        constructor
        · simp only [validIdB, Bool.and_eq_true, List.all_eq_true]
          exact ⟨hlo, hall⟩
        · rcases dollarOnly_eq_true.mp hdo with hrest | hrest
          · left
            rw [e6, hrest, List.append_nil]
          · right
            rw [e6, hrest]
            simp
      · rw [if_neg hdo] at h
        exact absurd h (by simp)
    · rw [if_neg hlo] at h
      exact absurd h (by simp)

/-- Completeness of the id tail: a valid cluster id followed by nothing or by
one newline matches, capturing the id. -/
theorem idMatch_append {c t : List Char} (hc : validIdB c = true)
    (ht : t = [] ∨ t = ['\n']) : idMatch (c ++ t) = some c := by
  cases c with
  | nil => simp [validIdB] at hc
  | cons ch crest =>
    simp only [validIdB, Bool.and_eq_true, List.all_eq_true] at hc
    obtain ⟨hlo, hall⟩ := hc
    have hstop : ∀ x xs, t = x :: xs → isIdChar x = false := by
      rcases ht with rfl | rfl
      · exact fun x xs hx => List.noConfusion hx
      · intro x xs hx
        injection hx with e1 e2
        subst e1
        decide
    have htir : takeIdRun (crest ++ t) = (crest, t) := takeIdRun_append hall hstop
    have hdol : dollarOnly t = true := dollarOnly_eq_true.mpr ht
    simp only [List.cons_append, idMatch, htir, if_pos hlo, hdol, if_true]

/-- Soundness of the matcher: a successful match determines the input up to
the `$`-tolerated single trailing newline, and the three groups satisfy
their classes. -/
theorem reMatch_sound {s p i c : List Char} (h : reMatch s = some (p, i, c)) :
    p ≠ [] ∧ '/' ∉ p ∧ i ≠ [] ∧ '/' ∉ i ∧ validIdB c = true ∧
      (s = canonL p i c ∨ s = canonL p i c ++ ['\n']) := by
  simp only [reMatch, Option.bind_eq_some] at h
  obtain ⟨s1, hs1, h⟩ := h
  obtain ⟨ps, hps, h⟩ := h
  obtain ⟨p1, s2⟩ := ps
  by_cases hps1 : p1 = []
  · rw [if_pos hps1] at h
    exact absurd h (by simp)
  · rw [if_neg hps1] at h
    simp only [Option.bind_eq_some] at h
    obtain ⟨s3, hs3, h⟩ := h
    obtain ⟨qs, hqs, h⟩ := h
    obtain ⟨i1, s4⟩ := qs
    by_cases hqs1 : i1 = []
    · rw [if_pos hqs1] at h
      exact absurd h (by simp)
    · rw [if_neg hqs1] at h
      simp only [Option.bind_eq_some, Option.map_eq_some'] at h
      obtain ⟨s5, hs5, cid, hcid, heq⟩ := h
      obtain ⟨hP, hI, hC⟩ : p1 = p ∧ i1 = i ∧ cid = c := by
        simpa [Prod.ext_iff] using heq
      subst hP; subst hI; subst hC
      obtain ⟨hvalid, hrest⟩ := idMatch_eq_some hcid
      have e1 := dropLit_eq_some hs1
      obtain ⟨e2, hpfree⟩ := splitAtSlash_eq_some hps
      have e3 := dropLit_eq_some hs3
      obtain ⟨e4, hifree⟩ := splitAtSlash_eq_some hqs
      have e5 := dropLit_eq_some hs5
      refine ⟨hps1, hpfree, hqs1, hifree, hvalid, ?_⟩
      rcases hrest with hrest | hrest
      · left
        subst e1; subst e2; subst e3; subst e4; subst e5; subst hrest
        simp [canonL, List.append_assoc]
      · right
        subst e1; subst e2; subst e3; subst e4; subst e5; subst hrest
        simp [canonL, List.append_assoc]

/-- Completeness of the matcher: any input of the exact canonical shape,
optionally followed by one newline, matches and yields the three segments. -/
theorem reMatch_complete {p i c t : List Char} (hp : p ≠ []) (hpf : '/' ∉ p)
    (hi : i ≠ []) (hif : '/' ∉ i) (hc : validIdB c = true)
    (ht : t = [] ∨ t = ['\n']) :
    reMatch (canonL p i c ++ t) = some (p, i, c) := by
  rw [canonL_append, reMatch]
  simp only [dropLit_append, Option.some_bind]
  rw [splitAtSlash_append hpf]
  simp only [Option.some_bind]
  rw [if_neg hp]
  simp only [dropLit_append, Option.some_bind]
  rw [splitAtSlash_append hif]
  simp only [Option.some_bind]
  rw [if_neg hi]
  simp only [dropLit_append, Option.some_bind]
  rw [idMatch_append hc ht]
  rfl

/-! ### String-level characterization -/

theorem data_of_append (s t : String) : (s ++ t).data = s.data ++ t.data :=
  String.data_append s t

theorem cluster_path_data (P I C : String) :
    (cluster_path P I C).data = canonL P.data I.data C.data := by
  have h1 : ("/instances/" : String).data = '/' :: ("instances/" : String).data := by decide
  have h2 : ("/clusters/" : String).data = '/' :: ("clusters/" : String).data := by decide
  simp only [cluster_path, canonL, data_of_append, projectsLit, instancesLit, clustersLit,
    h1, h2, List.cons_append, List.append_assoc]

/-- Soundness at the `String` level: a successful `matchClusterName`
determines the name as the canonical path of its three groups, up to the
`$`-tolerated single trailing newline. -/
theorem matchClusterName_eq_some {s P I C : String}
    (h : matchClusterName s = some (P, I, C)) :
    P.data ≠ [] ∧ '/' ∉ P.data ∧ I.data ≠ [] ∧ '/' ∉ I.data ∧ validIdB C.data = true ∧
      (s = cluster_path P I C ∨ s = cluster_path P I C ++ "\n") := by
  rcases hre : reMatch s.data with _ | ⟨p, i, c⟩
  · simp [matchClusterName, hre] at h
  · rw [matchClusterName, hre] at h
    simp only [Option.some.injEq, Prod.mk.injEq] at h
    obtain ⟨hP, hI, hC⟩ := h
    subst hP; subst hI; subst hC
    obtain ⟨h1, h2, h3, h4, h5, h6⟩ := reMatch_sound hre
    refine ⟨h1, h2, h3, h4, h5, ?_⟩
    rcases h6 with h6 | h6
    · left
      apply String.ext
      rw [h6, cluster_path_data]
    · right
      apply String.ext
      rw [h6, data_of_append, cluster_path_data]

theorem string_mk_data (s : String) : (⟨s.data⟩ : String) = s := rfl

/-- Completeness at the `String` level: a canonical path whose segments
satisfy the three classes matches, and the groups are exactly the segments. -/
theorem matchClusterName_complete {P I C : String} (hp : P.data ≠ [])
    (hpf : '/' ∉ P.data) (hi : I.data ≠ []) (hif : '/' ∉ I.data)
    (hc : validIdB C.data = true) :
    matchClusterName (cluster_path P I C) = some (P, I, C) := by
  have hre : reMatch (cluster_path P I C).data = some (P.data, I.data, C.data) := by
    rw [cluster_path_data]
    have := reMatch_complete hp hpf hi hif hc (Or.inl rfl)
    rwa [List.append_nil] at this
  rw [matchClusterName, hre]

theorem slash_decomp {a b x y : List Char} (ha : '/' ∉ a) (hb : '/' ∉ b)
    (h : a ++ '/' :: x = b ++ '/' :: y) : a = b ∧ x = y := by
  induction a generalizing b with
  | nil =>
    cases b with
    | nil => simpa using h
    | cons d ds =>
      injection h with e1 e2
      exfalso
      apply hb
      rw [← e1]
      exact List.mem_cons_self _ _
  | cons d ds ih =>
    cases b with
    | nil =>
      injection h with e1 e2
      exfalso
      apply ha
      rw [e1]
      exact List.mem_cons_self _ _
    | cons e es =>
      injection h with e1 e2
      have ha' : '/' ∉ ds := fun hm => ha (List.mem_cons_of_mem _ hm)
      have hb' : '/' ∉ es := fun hm => hb (List.mem_cons_of_mem _ hm)
      obtain ⟨hab, hxy⟩ := ih ha' hb' e2
      exact ⟨by rw [e1, hab], hxy⟩

/-- The canonical shape is uniquely decomposable: equal canonical paths (up
to a trailing tail) have equal project and instance segments, and the
cluster parts agree up to that tail. -/
theorem canonL_inj {p p' i i' c c' t t' : List Char}
    (hpf : '/' ∉ p) (hpf' : '/' ∉ p') (hif : '/' ∉ i) (hif' : '/' ∉ i')
    (h : canonL p i c ++ t = canonL p' i' c' ++ t') :
    p = p' ∧ i = i' ∧ c ++ t = c' ++ t' := by
  rw [canonL_append, canonL_append] at h
  have h1 := List.append_cancel_left h
  obtain ⟨hP, h2⟩ := slash_decomp hpf hpf' h1
  have h3 := List.append_cancel_left h2
  obtain ⟨hI, h4⟩ := slash_decomp hif hif' h3
  have h5 := List.append_cancel_left h4
  exact ⟨hP, hI, h5⟩

theorem cluster_path_inj {P P' I I' C C' : String} {t : List Char}
    (hpf : '/' ∉ P.data) (hpf' : '/' ∉ P'.data)
    (hif : '/' ∉ I.data) (hif' : '/' ∉ I'.data)
    (h : (cluster_path P I C).data = (cluster_path P' I' C').data ++ t) :
    P = P' ∧ I = I' ∧ C.data = C'.data ++ t := by
  rw [cluster_path_data, cluster_path_data] at h
  have h' : canonL P.data I.data C.data ++ [] = canonL P'.data I'.data C'.data ++ t := by
    rw [List.append_nil]
    exact h
  obtain ⟨hP, hI, hC⟩ := canonL_inj hpf hpf' hif hif' h'
  rw [List.append_nil] at hC
  exact ⟨String.ext hP, String.ext hI, hC⟩

/-! ### Properties of the path split -/

theorem splitOnSlash_ne_nil (s : List Char) : splitOnSlash s ≠ [] := by
  cases s with
  | nil => simp [splitOnSlash]
  | cons c cs =>
    simp only [splitOnSlash]
    by_cases hc : c = '/'
    · simp [hc]
    · rw [if_neg hc]
      rcases hsp : splitOnSlash cs with _ | ⟨a, as⟩
      · simp
      · simp

theorem splitOnSlash_no_slash {l : List Char} (h : '/' ∉ l) : splitOnSlash l = [l] := by
  induction l with
  | nil => rfl
  | cons c cs ih =>
    have hc : ¬c = '/' := by
      intro e
      exact h (by simp [e])
    have hcs : '/' ∉ cs := fun hm => h (List.mem_cons_of_mem _ hm)
    simp only [splitOnSlash, if_neg hc, ih hcs]

theorem splitOnSlash_two_le {s : List Char} (h : '/' ∈ s) :
    2 ≤ (splitOnSlash s).length := by
  induction s with
  | nil => simp at h
  | cons c cs ih =>
    simp only [splitOnSlash]
    by_cases hc : c = '/'
    · rw [if_pos hc]
      have h1 : 1 ≤ (splitOnSlash cs).length :=
        Nat.one_le_iff_ne_zero.mpr (by simpa using splitOnSlash_ne_nil cs)
      simpa using h1
    · rw [if_neg hc]
      have hcs : '/' ∈ cs := by
        rcases List.mem_cons.mp h with e | hm
        · exact absurd e.symm hc
        · exact hm
      rcases hsp : splitOnSlash cs with _ | ⟨a, as⟩
      · exact absurd hsp (splitOnSlash_ne_nil cs)
      · have := ih hcs
        rw [hsp] at this
        simpa using this

theorem getLastD_stable {α : Type} {l : List α} (h : l ≠ []) (d1 d2 : α) :
    l.getLastD d1 = l.getLastD d2 := by
  cases l with
  | nil => exact absurd rfl h
  | cons a as => rfl

theorem splitOnSlash_append_getLastD {s l : List Char} (h : '/' ∉ l) (d : List Char) :
    (splitOnSlash (s ++ '/' :: l)).getLastD d = l := by
  induction s generalizing d with
  | nil =>
    simp only [List.nil_append, splitOnSlash, if_pos rfl, splitOnSlash_no_slash h]
    rfl
  | cons c cs ih =>
    simp only [List.cons_append, splitOnSlash]
    by_cases hc : c = '/'
    · rw [if_pos hc, List.getLastD_cons]
      exact ih []
    · rw [if_neg hc]
      rcases hsp : splitOnSlash (cs ++ '/' :: l) with _ | ⟨a, as⟩
      · exact absurd hsp (splitOnSlash_ne_nil _)
      · have hlen : 2 ≤ (splitOnSlash (cs ++ '/' :: l)).length :=
          splitOnSlash_two_le (by simp)
        rw [hsp] at hlen
        have has : as ≠ [] := by
          intro e
          rw [e] at hlen
          simp at hlen
        rw [List.getLastD_cons]
        have := ih d
        rw [hsp, List.getLastD_cons] at this
        rw [getLastD_stable has (c :: a) a]
        exact this

/-- The last path segment of a location path is the location id, whenever the
id itself is slash-free. -/
theorem lastPathSegment_location_path (P l : String) (h : '/' ∉ l.data) :
    lastPathSegment (location_path P l) = l := by
  have hsplit : ("/locations/" : String).data = ("/locations" : String).data ++ ['/'] := by
    decide
  have hdata : (location_path P l).data
      = (("projects/" : String).data ++ P.data ++ ("/locations" : String).data) ++ '/' :: l.data := by
    simp only [location_path, data_of_append, hsplit, List.append_assoc, List.cons_append,
      List.nil_append]
  apply String.ext
  rw [lastPathSegment, hdata, splitOnSlash_append_getLastD h]

/-! ### Claims -/

/-- C1, counterexample: the claim demands failure for ANY extra trailing
character, including a trailing newline; but a name that is the exact
canonical form followed by one newline is accepted by the `$` anchor of
Python's `re`, and `from_pb` succeeds on it. -/
theorem claim_C1_counterexample :
    BaseCluster.from_pb
        { name := "projects/p1/instances/i1/clusters/c1\n", location := "us/loc",
          serve_nodes := 3, default_storage_type := 1, state := 2 }
        { instance_id := "i1", _client := { project := "p1" } }
      = Except.ok
          { cluster_id := "c1",
            _instance := { instance_id := "i1", _client := { project := "p1" } },
            location_id := some "loc", serve_nodes := some 3,
            default_storage_type := some 1, _state := some 2 } := by
  rfl

/-- C1 (amended): the name check of `from_pb` requires a full-string match of
the pattern, except that a single newline ending the string is tolerated by
the `$` anchor: every accepted name is exactly the canonical path of its
groups, or that path followed by one newline; in particular a trailing
`/extra` segment fails. -/
theorem claim_C1_full_match :
    (∀ (s P I C : String), matchClusterName s = some (P, I, C) →
        s = cluster_path P I C ∨ s = cluster_path P I C ++ "\n") ∧
      matchClusterName "projects/p1/instances/i1/clusters/c1/extra" = none := by
  constructor
  · intro s P I C h
    exact (matchClusterName_eq_some h).2.2.2.2.2
  · decide

/-- C1 witness: the soundness half of `claim_C1_full_match` applied at a
concrete accepted name. -/
theorem claim_C1_witness :
    ("projects/p1/instances/i1/clusters/c1" : String) = cluster_path "p1" "i1" "c1" ∨
      ("projects/p1/instances/i1/clusters/c1" : String)
        = cluster_path "p1" "i1" "c1" ++ "\n" :=
  claim_C1_full_match.1 "projects/p1/instances/i1/clusters/c1" "p1" "i1" "c1" (by decide)

/-- C3, counterexample: a name whose cluster-id segment is `c1` followed by a
newline (so NOT of the form lowercase letter then a run of `[-a-z0-9]`) is
nevertheless accepted, because `$` matches before a trailing newline. -/
theorem claim_C3_counterexample :
    matchClusterName (cluster_path "p1" "i1" "c1\n") ≠ none := by
  decide

/-- C3 (amended): the well-formed example parses to its three groups; and a
name whose cluster-id segment violates `[a-z][-a-z0-9]*` fails with the
format error, unless that segment is a valid cluster id followed by exactly
one newline (which the `$` anchor tolerates). -/
theorem claim_C3_cluster_id :
    matchClusterName "projects/p1/instances/i1/clusters/c1" = some ("p1", "i1", "c1") ∧
      ∀ (P I C : String), P.data ≠ [] → '/' ∉ P.data → I.data ≠ [] → '/' ∉ I.data →
        validIdB C.data = false →
        (∀ c', C.data = c' ++ ['\n'] → validIdB c' = false) →
        matchClusterName (cluster_path P I C) = none := by
  constructor
  · decide
  · intro P I C hp hpf hi hif hbad hnl
    rcases hm : matchClusterName (cluster_path P I C) with _ | ⟨P', I', C'⟩
    · rfl
    · exfalso
      obtain ⟨_, hpf', _, hif', hvalid', hdisj⟩ := matchClusterName_eq_some hm
      rcases hdisj with he | he
      · have hd : (cluster_path P I C).data = (cluster_path P' I' C').data ++ [] := by
          rw [List.append_nil]
          exact congrArg String.data he
        obtain ⟨_, _, hC⟩ := cluster_path_inj hpf hpf' hif hif' hd
        rw [List.append_nil] at hC
        rw [← hC] at hvalid'
        simp [hbad] at hvalid'
      · have hd : (cluster_path P I C).data = (cluster_path P' I' C').data ++ ['\n'] := by
          have h1 := congrArg String.data he
          rw [data_of_append] at h1
          have h2 : ("\n" : String).data = ['\n'] := by decide
          rw [h2] at h1
          exact h1
        obtain ⟨_, _, hC⟩ := cluster_path_inj hpf hpf' hif hif' hd
        simp [hnl C'.data hC] at hvalid'

/-- C3 witness: the uppercase example of the spec, `C1`, rejected. -/
theorem claim_C3_witness :
    matchClusterName (cluster_path "p1" "i1" "C1") = none :=
  claim_C3_cluster_id.2 "p1" "i1" "C1" (by decide) (by decide) (by decide) (by decide)
    (by decide)
    (by
      intro c' h
      exfalso
      have hm : '\n' ∈ c' ++ ['\n'] := List.mem_append_right _ (by simp)
      rw [← h] at hm
      revert hm
      decide)

/-- C10: the project and instance segments are constrained only to be
nonempty and slash-free: an empty project or instance segment fails, and any
nonempty slash-free project and instance segments (uppercase and punctuation
included) are accepted together with a valid cluster id. -/
theorem claim_C10_segment_classes :
    matchClusterName "projects//instances/i1/clusters/c1" = none ∧
      matchClusterName "projects/p1/instances//clusters/c1" = none ∧
      ∀ (P I C : String), P.data ≠ [] → '/' ∉ P.data → I.data ≠ [] → '/' ∉ I.data →
        validIdB C.data = true →
        matchClusterName (cluster_path P I C) = some (P, I, C) := by
  refine ⟨by decide, by decide, ?_⟩
  intro P I C hp hpf hi hif hc
  exact matchClusterName_complete hp hpf hi hif hc

/-- C10 witness: segments with uppercase, a space, a dot and an exclamation
mark are accepted. -/
theorem claim_C10_witness :
    matchClusterName (cluster_path "P 1!" "I.2" "c1") = some ("P 1!", "I.2", "c1") :=
  claim_C10_segment_classes.2.2 "P 1!" "I.2" "c1" (by decide) (by decide) (by decide)
    (by decide) (by decide)

/-- C2: the three error exits of `from_pb` — format error (carrying the
offending name), instance mismatch (checked first), project mismatch
(checked second, only once the instance segment agrees) — and the three
error values are pairwise distinguishable by their detail. -/
theorem claim_C2_error_kinds :
    (∀ (pb : ClusterPb) (inst : Instance), matchClusterName pb.name = none →
        BaseCluster.from_pb pb inst
          = Except.error (.valueError [clusterNameFormatMsg, pb.name])) ∧
      (∀ (pb : ClusterPb) (inst : Instance) (P I C : String),
        matchClusterName pb.name = some (P, I, C) → I ≠ inst.instance_id →
        BaseCluster.from_pb pb inst
          = Except.error (.valueError [instanceMismatchMsg])) ∧
      (∀ (pb : ClusterPb) (inst : Instance) (P I C : String),
        matchClusterName pb.name = some (P, I, C) → I = inst.instance_id →
        P ≠ inst._client.project →
        BaseCluster.from_pb pb inst
          = Except.error (.valueError [projectMismatchMsg])) ∧
      (∀ nm : String,
        PyError.valueError [clusterNameFormatMsg, nm]
            ≠ PyError.valueError [instanceMismatchMsg] ∧
          PyError.valueError [clusterNameFormatMsg, nm]
            ≠ PyError.valueError [projectMismatchMsg]) ∧
      PyError.valueError [instanceMismatchMsg]
        ≠ PyError.valueError [projectMismatchMsg] := by
  refine ⟨?_, ?_, ?_, ?_, by decide⟩
  · intro pb inst h
    simp [BaseCluster.from_pb, h]
  · intro pb inst P I C h hI
    simp [BaseCluster.from_pb, h, hI]
  · intro pb inst P I C h hI hP
    simp [BaseCluster.from_pb, h, hI, hP]
  · intro nm
    exact ⟨by simp, by simp⟩

/-- C2 witness: instance mismatch at a concrete payload (name says `i2`, the
client context says `i1`), hitting the instance branch. -/
theorem claim_C2_witness :
    BaseCluster.from_pb
        { name := "projects/p1/instances/i2/clusters/c1", location := "",
          serve_nodes := 0, default_storage_type := 0, state := 0 }
        { instance_id := "i1", _client := { project := "p1" } }
      = Except.error (.valueError [instanceMismatchMsg]) :=
  claim_C2_error_kinds.2.1 _ _ "p1" "i2" "c1" (by decide) (by decide)

/-- C4: on success `from_pb` returns a fresh record holding the parsed
cluster id, the given instance, the last path segment of the payload
location, and the payload's `serve_nodes`, `default_storage_type` and
`state`; and `_update_from_pb` overwrites those four fields whatever their
prior values, leaving identity untouched. -/
theorem claim_C4_success :
    (∀ (pb : ClusterPb) (inst : Instance) (P I C : String),
        matchClusterName pb.name = some (P, I, C) → I = inst.instance_id →
        P = inst._client.project →
        BaseCluster.from_pb pb inst
          = Except.ok
              { cluster_id := C, _instance := inst,
                location_id := some (lastPathSegment pb.location),
                serve_nodes := some pb.serve_nodes,
                default_storage_type := some pb.default_storage_type,
                _state := some pb.state }) ∧
      ∀ (r : BaseCluster) (pb : ClusterPb),
        (r._update_from_pb pb).location_id = some (lastPathSegment pb.location) ∧
        (r._update_from_pb pb).serve_nodes = some pb.serve_nodes ∧
        (r._update_from_pb pb).default_storage_type = some pb.default_storage_type ∧
        (r._update_from_pb pb)._state = some pb.state ∧
        (r._update_from_pb pb).cluster_id = r.cluster_id ∧
        (r._update_from_pb pb)._instance = r._instance := by
  constructor
  · intro pb inst P I C h hI hP
    simp [BaseCluster.from_pb, h, hI, hP, BaseCluster._update_from_pb]
  · intro r pb
    exact ⟨rfl, rfl, rfl, rfl, rfl, rfl⟩

/-- C4 witness: the success branch at a concrete payload. -/
theorem claim_C4_witness :
    BaseCluster.from_pb
        { name := "projects/p1/instances/i1/clusters/c1",
          location := "projects/p1/locations/us-east1-b",
          serve_nodes := 3, default_storage_type := 1, state := 2 }
        { instance_id := "i1", _client := { project := "p1" } }
      = Except.ok
          { cluster_id := "c1",
            _instance := { instance_id := "i1", _client := { project := "p1" } },
            location_id := some (lastPathSegment "projects/p1/locations/us-east1-b"),
            serve_nodes := some 3, default_storage_type := some 1,
            _state := some 2 } :=
  claim_C4_success.1 _ _ "p1" "i1" "c1" (by decide) rfl rfl

/-- C5, counterexample: the claim quantifies over every record, but a record
whose `location_id` contains a slash is not reproduced by the round trip:
`_to_pb` embeds it in a location path and `_update_from_pb` keeps only the
last segment. -/
theorem claim_C5_counterexample :
    (BaseCluster._update_from_pb
        { cluster_id := "c1", _instance := ⟨"i1", ⟨"p1"⟩⟩, location_id := some "a/b",
          serve_nodes := some 3, default_storage_type := some 1, _state := some 2 }
        (BaseCluster._to_pb
          { cluster_id := "c1", _instance := ⟨"i1", ⟨"p1"⟩⟩, location_id := some "a/b",
            serve_nodes := some 3, default_storage_type := some 1,
            _state := some 2 })).location_id
      ≠ some "a/b" := by
  decide

/-- C5 (amended): for every record whose `location_id`, `serve_nodes` and
`default_storage_type` are set and whose `location_id` is slash-free, the
`_to_pb` / `_update_from_pb` round trip reproduces those three fields; and
`_to_pb` leaves `name` and `state` at their protobuf defaults, so cluster id
and state are excluded from the round trip. -/
theorem claim_C5_roundtrip :
    ∀ (r : BaseCluster) (l : String) (n d : Int),
      r.location_id = some l → '/' ∉ l.data → r.serve_nodes = some n →
      r.default_storage_type = some d →
      ((r._update_from_pb r._to_pb).location_id = r.location_id ∧
        (r._update_from_pb r._to_pb).serve_nodes = r.serve_nodes ∧
        (r._update_from_pb r._to_pb).default_storage_type = r.default_storage_type ∧
        (r._to_pb).name = "" ∧ (r._to_pb).state = 0) := by
  intro r l n d hl hlf hn hd
  have hseg := lastPathSegment_location_path r._instance._client.project l hlf
  refine ⟨?_, ?_, ?_, rfl, rfl⟩ <;>
    simp [BaseCluster._update_from_pb, BaseCluster._to_pb, hl, hn, hd, hseg]

/-- C5 witness: the round trip at a concrete record with set, slash-free
fields. -/
theorem claim_C5_witness :
    (BaseCluster._update_from_pb
          { cluster_id := "c1", _instance := ⟨"i1", ⟨"p1"⟩⟩,
            location_id := some "us-east1-b", serve_nodes := some 3,
            default_storage_type := some 1, _state := some 2 }
          (BaseCluster._to_pb
            { cluster_id := "c1", _instance := ⟨"i1", ⟨"p1"⟩⟩,
              location_id := some "us-east1-b", serve_nodes := some 3,
              default_storage_type := some 1, _state := some 2 })).location_id
        = some "us-east1-b" ∧
      (BaseCluster._update_from_pb
          { cluster_id := "c1", _instance := ⟨"i1", ⟨"p1"⟩⟩,
            location_id := some "us-east1-b", serve_nodes := some 3,
            default_storage_type := some 1, _state := some 2 }
          (BaseCluster._to_pb
            { cluster_id := "c1", _instance := ⟨"i1", ⟨"p1"⟩⟩,
              location_id := some "us-east1-b", serve_nodes := some 3,
              default_storage_type := some 1, _state := some 2 })).serve_nodes
        = some 3 := by
  have h := claim_C5_roundtrip
    { cluster_id := "c1", _instance := ⟨"i1", ⟨"p1"⟩⟩,
      location_id := some "us-east1-b", serve_nodes := some 3,
      default_storage_type := some 1, _state := some 2 }
    "us-east1-b" 3 1 rfl (by decide) rfl rfl
  exact ⟨h.1, h.2.1⟩

/-- C6: `__eq__` is reflexive, and any two records agreeing on the identity
fields `cluster_id` and `_instance` are equal, whatever their configuration
and state fields. -/
theorem claim_C6_equality :
    (∀ r : BaseCluster, r.eqRecord r = true) ∧
      ∀ r1 r2 : BaseCluster, r1.cluster_id = r2.cluster_id →
        r1._instance = r2._instance → r1.eqRecord r2 = true := by
  constructor
  · intro r
    simp [BaseCluster.eqRecord]
  · intro r1 r2 h1 h2
    simp [BaseCluster.eqRecord, h1, h2]

/-- C6 witness: two records equal in identity but differing in location,
node count, storage type and state are still equal. -/
theorem claim_C6_witness :
    BaseCluster.eqRecord
        { cluster_id := "c1", _instance := ⟨"i1", ⟨"p1"⟩⟩, location_id := none,
          serve_nodes := some 3, default_storage_type := none, _state := none }
        { cluster_id := "c1", _instance := ⟨"i1", ⟨"p1"⟩⟩, location_id := some "l",
          serve_nodes := some 30, default_storage_type := some 1, _state := some 2 }
      = true :=
  claim_C6_equality.2 _ _ rfl rfl

/-- C7: `name` is recomputed from the record's current `_instance` and
`cluster_id` on every call; replacing the project reachable through
`_instance` changes the next result accordingly. -/
theorem claim_C7_name_not_cached :
    (∀ r : BaseCluster,
        r.name = cluster_path r._instance._client.project r._instance.instance_id
          r.cluster_id) ∧
      ∀ (r : BaseCluster) (p' : String),
        ({ r with
            _instance := { r._instance with _client := { project := p' } } } :
              BaseCluster).name
          = cluster_path p' r._instance.instance_id r.cluster_id :=
  ⟨fun _ => rfl, fun _ _ => rfl⟩

/-- C8: `from_pb` computes the same result as its state-passing reading, and
that reading returns every payload field unchanged, on success and on
failure alike. -/
theorem claim_C8_frame :
    ∀ (pb : ClusterPb) (inst : Instance),
      (BaseCluster.from_pb_st pb inst).1 = BaseCluster.from_pb pb inst ∧
      (BaseCluster.from_pb_st pb inst).2.name = pb.name ∧
      (BaseCluster.from_pb_st pb inst).2.location = pb.location ∧
      (BaseCluster.from_pb_st pb inst).2.serve_nodes = pb.serve_nodes ∧
      (BaseCluster.from_pb_st pb inst).2.default_storage_type
        = pb.default_storage_type ∧
      (BaseCluster.from_pb_st pb inst).2.state = pb.state := by
  intro pb inst
  have h2 : BaseCluster.from_pb_st pb inst = (BaseCluster.from_pb pb inst, pb) := by
    simp only [BaseCluster.from_pb_st, BaseCluster.from_pb]
    rcases hm : matchClusterName pb.name with _ | ⟨P, I, C⟩
    · simp [hm]
    · simp only [hm]
      split_ifs <;> rfl
  rw [h2]
  exact ⟨rfl, rfl, rfl, rfl, rfl, rfl⟩

/-- C9: each of the five lifecycle stubs signals `NotImplementedError` for
every record and hands the record back unchanged. -/
theorem claim_C9_lifecycle_stubs :
    ∀ r : BaseCluster,
      r.reload = (Except.error PyError.notImplementedError, r) ∧
      r.existsCluster = (Except.error PyError.notImplementedError, r) ∧
      r.create = (Except.error PyError.notImplementedError, r) ∧
      r.update = (Except.error PyError.notImplementedError, r) ∧
      r.delete = (Except.error PyError.notImplementedError, r) :=
  fun _ => ⟨rfl, rfl, rfl, rfl, rfl⟩
